import Mathlib

/-!
Shallow embedding of the balanced-ternary core of the Setun emulator:
the trit algebra (`src/ternary/trit.rs`), fixed-width words
(`src/ternary/word.rs`), the arithmetic kernel (`src/ternary/arith.rs`),
the instruction codec (`src/cpu/decode.rs`), memory (`src/cpu/memory.rs`),
registers (`src/cpu/registers.rs`) and the execution engine
(`src/cpu/execute.rs`).  Words are lists of trits, least-significant
first, exactly as the `[Trit; N]` arrays of the source; machine integers
(`i8`, `i32`, `i64`) are modelled as `Int`, with the one wrapping cast
(`i8 as usize` in the shift instructions) made explicit.
-/

namespace Setun

/-- A single balanced ternary digit, values N = -1, O = 0, P = +1. -/
inductive Trit where
  | N
  | O
  | P
deriving DecidableEq, Repr

namespace Trit

/-- Integer value of a trit (`Trit::to_i8`). -/
def toInt : Trit → Int
  | N => -1
  | O => 0
  | P => 1

/-- Negate the trit, N and P swap, O fixed (`Trit::neg`). -/
def neg : Trit → Trit
  | N => P
  | O => O
  | P => N

/-- Half-adder sum, base-3 wraparound (`Trit::sum`): -2 wraps to +1, +2 wraps to -1. -/
def sum (a b : Trit) : Trit :=
  let total := a.toInt + b.toInt
  if total = -2 then P
  else if total = -1 then N
  else if total = 0 then O
  else if total = 1 then P
  else N

/-- Half-adder carry (`Trit::carry`): -2 borrows, +2 carries, else no carry. -/
def carry (a b : Trit) : Trit :=
  let total := a.toInt + b.toInt
  if total = -2 then N
  else if total = 2 then P
  else O

/-- Any (gullibility): first non-zero input (`Trit::any`). -/
def any : Trit → Trit → Trit
  | O, b => b
  | a, _ => a

/-- Full adder of three trits built from two half adders, carries combined
with `any` (`Trit::full_add`).  The source comments that the two carries
cannot both be non-zero; that is false for inputs (P, P, N) and (N, N, P). -/
def full_add (a b carry_in : Trit) : Trit × Trit :=
  let s1 := a.sum b
  let c1 := a.carry b
  let s := s1.sum carry_in
  let c2 := s1.carry carry_in
  (s, c1.any c2)

/-- Single-trit multiplication, never carries (`Trit::mul`). -/
def mul : Trit → Trit → Trit
  | O, _ => O
  | _, O => O
  | P, P => P
  | N, N => P
  | P, N => N
  | N, P => N

/-- Test for the zero trit (`Trit::is_zero`). -/
def is_zero : Trit → Bool
  | O => true
  | _ => false

end Trit

/-- Value of a trit list, least-significant digit first: the sum of
trit i times 3^i, as computed by the `to_i32` / `to_i64` loops. -/
def value : List Trit → Int
  | [] => 0
  | t :: rest => t.toInt + 3 * value rest

/-- Digit-extraction loop shared by `Tryte9::from_i32`, `Word18::from_i64`
and `Tryte5::from_i32`, on the absolute value: at each step the source
computes `remainder = (value % 3) + 1` and maps 1 to (O, 0), 2 to (P, 0)
and 3 to (N, 1), then sets `value = value / 3 + carry`. -/
def fromNatAux : Nat → Nat → List Trit
  | 0, _ => []
  | w + 1, v =>
    if v % 3 = 0 then Trit.O :: fromNatAux w (v / 3)
    else if v % 3 = 1 then Trit.P :: fromNatAux w (v / 3)
    else Trit.N :: fromNatAux w (v / 3 + 1)

/-- Trit-wise negation of a word (`neg` of the word types). -/
def negList (l : List Trit) : List Trit := l.map Trit.neg

/-- Signed conversion of the word types: convert the absolute value and
negate the result when the input was negative. -/
def fromIntList (w : Nat) (v : Int) : List Trit :=
  if v < 0 then negList (fromNatAux w v.natAbs) else fromNatAux w v.natAbs

/-- Sign of a word: its leading (highest-index) non-zero trit, O for the
zero word (`Tryte9::sign`, `Word18::sign`). -/
def wsign : List Trit → Trit
  | [] => Trit.O
  | t :: rest =>
    match wsign rest with
    | Trit.O => t
    | s => s

theorem fromNatAux_length (w v : Nat) : (fromNatAux w v).length = w := by
  induction w generalizing v with
  | zero => rfl
  | succ w ih =>
    unfold fromNatAux
    split
    · simp [ih]
    · split <;> simp [ih]

theorem negList_length (l : List Trit) : (negList l).length = l.length := by
  simp [negList]

theorem fromIntList_length (w : Nat) (v : Int) : (fromIntList w v).length = w := by
  unfold fromIntList
  split <;> simp [negList_length, fromNatAux_length]

/-- A 9-trit word, the Setun "nitrit" (`Tryte9`). -/
abbrev Tryte9 := { l : List Trit // l.length = 9 }

/-- An 18-trit word (`Word18`). -/
abbrev Word18 := { l : List Trit // l.length = 18 }

/-- A 5-trit word for the index register F (`Tryte5`). -/
abbrev Tryte5 := { l : List Trit // l.length = 5 }

def Tryte9.zero : Tryte9 := ⟨List.replicate 9 Trit.O, rfl⟩

def Tryte9.to_i32 (a : Tryte9) : Int := value a.val

/-- Conversion from an integer (`Tryte9::from_i32`).  The source asserts
the value lies in [-9841, 9841] and panics otherwise; inside that range
this loop produces the unique 9-trit representation. -/
def Tryte9.from_i32 (v : Int) : Tryte9 := ⟨fromIntList 9 v, fromIntList_length 9 v⟩

def Tryte9.neg (a : Tryte9) : Tryte9 := ⟨negList a.val, by rw [negList_length, a.prop]⟩

def Tryte9.is_zero (a : Tryte9) : Bool := a.val.all Trit.is_zero

def Tryte9.sign (a : Tryte9) : Trit := wsign a.val

/-- Zero-extension of a nitrit to 18 trits (`Tryte9::to_word18`), which
preserves the value in balanced ternary. -/
def Tryte9.to_word18 (a : Tryte9) : Word18 :=
  ⟨a.val ++ List.replicate 9 Trit.O, by simp [a.prop]⟩

def Word18.zero : Word18 := ⟨List.replicate 18 Trit.O, rfl⟩

def Word18.to_i64 (a : Word18) : Int := value a.val

/-- Conversion from an integer (`Word18::from_i64`); the source asserts
the value lies in [-193710244, 193710244]. -/
def Word18.from_i64 (v : Int) : Word18 := ⟨fromIntList 18 v, fromIntList_length 18 v⟩

def Word18.neg (a : Word18) : Word18 := ⟨negList a.val, by rw [negList_length, a.prop]⟩

def Word18.is_zero (a : Word18) : Bool := a.val.all Trit.is_zero

def Word18.sign (a : Word18) : Trit := wsign a.val

/-- Low 9-trit half of an 18-trit word (`Word18::low`). -/
def Word18.low (a : Word18) : Tryte9 :=
  ⟨a.val.take 9, by simp [a.prop]⟩

def Tryte5.zero : Tryte5 := ⟨List.replicate 5 Trit.O, rfl⟩

def Tryte5.to_i32 (a : Tryte5) : Int := value a.val

/-- Conversion from an integer (`Tryte5::from_i32`); the source asserts
the value lies in [-121, 121]. -/
def Tryte5.from_i32 (v : Int) : Tryte5 := ⟨fromIntList 5 v, fromIntList_length 5 v⟩

/-- Zero-extension of the index register to a nitrit (`Tryte5::to_tryte9`). -/
def Tryte5.to_tryte9 (a : Tryte5) : Tryte9 :=
  ⟨a.val ++ List.replicate 4 Trit.O, by simp [a.prop]⟩

/-!
Arithmetic kernel, from `src/ternary/arith.rs`.
-/

/-- Ripple-carry loop of `add`: positions are processed from the least
significant digit, each step feeding the carry into the next full adder. -/
def rippleAdd : List (Trit × Trit) → Trit → List Trit × Trit
  | [], c => ([], c)
  | ab :: rest, c =>
    let sc := Trit.full_add ab.1 ab.2 c
    let rc := rippleAdd rest sc.2
    (sc.1 :: rc.1, rc.2)

theorem rippleAdd_length (ps : List (Trit × Trit)) (c : Trit) :
    (rippleAdd ps c).1.length = ps.length := by
  induction ps generalizing c with
  | nil => rfl
  | cons ab rest ih => simp [rippleAdd, ih]

/-- Add two 18-trit words, returning the result word and the final
carry (`arith::add`). -/
def add (a b : Word18) : Word18 × Trit :=
  let rc := rippleAdd (a.val.zip b.val) Trit.O
  (⟨rc.1, by rw [rippleAdd_length, List.length_zip, a.prop, b.prop]; rfl⟩, rc.2)

/-- Subtraction as addition of the negation (`arith::subtract`). -/
def subtract (a b : Word18) : Word18 × Trit := add a b.neg

/-- Shift a word left by n trit positions, filling with zeros at the low
end; a shift by 18 or more yields zero (`arith::shift_left`). -/
def shift_left (a : Word18) (n : Nat) : Word18 :=
  if h : 18 ≤ n then Word18.zero
  else
    ⟨List.replicate n Trit.O ++ a.val.take (18 - n), by
      simp [a.prop]
      omega⟩

/-- Shift a word right by n trit positions, dropping the low n trits;
a shift by 18 or more yields zero (`arith::shift_right`). -/
def shift_right (a : Word18) (n : Nat) : Word18 :=
  if h : 18 ≤ n then Word18.zero
  else
    ⟨a.val.drop n ++ List.replicate n Trit.O, by
      simp [a.prop]
      omega⟩

/-- Inner loop of `multiply` over the trits of b: the partial product
`a_i * b_j` is added into the 36-trit accumulator at position i + j with
the running carry, the two carries being combined with `any`. -/
def mulInner (ai : Trit) : List Trit → Nat → List Trit → Trit → List Trit × Trit
  | [], _, prod, c => (prod, c)
  | bj :: rest, pos, prod, c =>
    let pp := ai.mul bj
    let s1 := Trit.full_add (prod.getD pos Trit.O) pp Trit.O
    let s2 := Trit.full_add s1.1 c Trit.O
    mulInner ai rest (pos + 1) (prod.set pos s2.1) (s1.2.any s2.2)

/-- Carry-propagation loop of `multiply`: while the carry is non-zero and
the index is below 36, add it into the accumulator.  The index increases
by one each iteration, so the loop runs at most 36 - k times; the fuel
argument makes that recursion structural. -/
def propagateAux : Nat → List Trit → Nat → Trit → List Trit
  | 0, prod, _, _ => prod
  | fuel + 1, prod, k, c =>
    if c.is_zero then prod
    else if 36 ≤ k then prod
    else
      let sc := Trit.full_add (prod.getD k Trit.O) c Trit.O
      propagateAux fuel (prod.set k sc.1) (k + 1) sc.2

def propagate (prod : List Trit) (k : Nat) (c : Trit) : List Trit :=
  propagateAux (36 - k) prod k c

/-- Outer loop of `multiply` over the trits of a: rows with a zero trit
contribute nothing and are skipped. -/
def mulRows (bs : List Trit) : List Trit → Nat → List Trit → List Trit
  | [], _, prod => prod
  | ai :: rest, i, prod =>
    if ai.is_zero then mulRows bs rest (i + 1) prod
    else
      let inner := mulInner ai bs i prod Trit.O
      let prod2 := propagate inner.1 (i + 18) inner.2
      mulRows bs rest (i + 1) prod2

theorem mulInner_length (ai : Trit) (bs : List Trit) (pos : Nat)
    (prod : List Trit) (c : Trit) :
    (mulInner ai bs pos prod c).1.length = prod.length := by
  induction bs generalizing pos prod c with
  | nil => rfl
  | cons bj rest ih => simp [mulInner, ih]

theorem propagateAux_length (fuel : Nat) (prod : List Trit) (k : Nat) (c : Trit) :
    (propagateAux fuel prod k c).length = prod.length := by
  induction fuel generalizing prod k c with
  | zero => rfl
  | succ fuel ih =>
    unfold propagateAux
    split
    · rfl
    · split
      · rfl
      · simp [ih]

theorem mulRows_length (bs l : List Trit) (i : Nat) (prod : List Trit) :
    (mulRows bs l i prod).length = prod.length := by
  induction l generalizing i prod with
  | nil => rfl
  | cons ai rest ih =>
    unfold mulRows
    split
    · simp [ih]
    · simp [ih, propagate, propagateAux_length, mulInner_length]

/-- Schoolbook multiplication of two 18-trit words into a 36-trit
accumulator, returned as the (low, high) halves (`arith::multiply`). -/
def multiply (a b : Word18) : Word18 × Word18 :=
  (⟨(mulRows b.val a.val 0 (List.replicate 36 Trit.O)).take 18, by
      simp [mulRows_length]⟩,
   ⟨(mulRows b.val a.val 0 (List.replicate 36 Trit.O)).drop 18, by
      simp [mulRows_length]⟩)

/-!
Facts about word values: bounds, uniqueness of the balanced-ternary
representation, and correctness of the conversion loops.
-/

theorem Trit.toInt_neg (t : Trit) : t.neg.toInt = -t.toInt := by
  cases t <;> rfl

theorem value_negList (l : List Trit) : value (negList l) = -value l := by
  induction l with
  | nil => rfl
  | cons t rest ih =>
    simp only [negList, List.map_cons, value, Trit.toInt_neg]
    simp only [negList] at ih
    rw [ih]
    ring

theorem value_bound (l : List Trit) : 2 * (value l).natAbs + 1 ≤ 3 ^ l.length := by
  induction l with
  | nil => simp [value]
  | cons t rest ih =>
    have h1 : (value (t :: rest)).natAbs ≤ t.toInt.natAbs + 3 * (value rest).natAbs := by
      calc (value (t :: rest)).natAbs
          = (t.toInt + 3 * value rest).natAbs := rfl
        _ ≤ t.toInt.natAbs + (3 * value rest).natAbs := Int.natAbs_add_le _ _
        _ = t.toInt.natAbs + 3 * (value rest).natAbs := by
            rw [Int.natAbs_mul]; rfl
    have h2 : t.toInt.natAbs ≤ 1 := by cases t <;> simp [Trit.toInt]
    simp only [List.length_cons, pow_succ]
    omega

theorem value_inj : ∀ {l1 l2 : List Trit},
    l1.length = l2.length → value l1 = value l2 → l1 = l2 := by
  intro l1
  induction l1 with
  | nil =>
    intro l2 hlen _
    cases l2 with
    | nil => rfl
    | cons t2 r2 => simp at hlen
  | cons t1 r1 ih =>
    intro l2 hlen hval
    cases l2 with
    | nil => simp at hlen
    | cons t2 r2 =>
      simp only [value] at hval
      have ht : t1 = t2 ∧ value r1 = value r2 := by
        cases t1 <;> cases t2 <;> simp [Trit.toInt] at hval ⊢ <;> omega
      rw [ht.1, ih (by simpa using hlen) ht.2]

theorem fromNatAux_zero (w : Nat) : fromNatAux w 0 = List.replicate w Trit.O := by
  induction w with
  | zero => rfl
  | succ w ih => simp [fromNatAux, ih, List.replicate]

theorem fromNatAux_value (w : Nat) : ∀ v : Nat, 2 * v + 1 ≤ 3 ^ w →
    value (fromNatAux w v) = v := by
  induction w with
  | zero =>
    intro v h
    simp only [pow_zero] at h
    have : v = 0 := by omega
    simp [this, fromNatAux, value]
  | succ w ih =>
    intro v h
    have hdm : 3 * (v / 3) + v % 3 = v := by omega
    have hpow : (3 : Nat) ^ (w + 1) = 3 * 3 ^ w := by ring
    have hodd : 3 ^ w % 2 = 1 := by
      simp [Nat.pow_mod]
    rw [hpow] at h
    unfold fromNatAux
    split
    · rename_i h0
      rw [value, ih (v / 3) (by omega)]
      simp only [Trit.toInt]
      omega
    · split
      · rename_i hne h1
        rw [value, ih (v / 3) (by omega)]
        simp only [Trit.toInt]
        omega
      · rename_i hne0 hne1
        have h2 : v % 3 = 2 := by omega
        rw [value, ih (v / 3 + 1) (by omega)]
        simp only [Trit.toInt]
        omega

theorem fromNatAux_pad (m : Nat) : ∀ (w v : Nat), 2 * v + 1 ≤ 3 ^ w →
    fromNatAux (w + m) v = fromNatAux w v ++ List.replicate m Trit.O := by
  intro w
  induction w with
  | zero =>
    intro v h
    simp only [pow_zero] at h
    have : v = 0 := by omega
    simp [this, fromNatAux, fromNatAux_zero]
  | succ w ih =>
    intro v h
    have hpow : (3 : Nat) ^ (w + 1) = 3 * 3 ^ w := by ring
    have hodd : 3 ^ w % 2 = 1 := by
      simp [Nat.pow_mod]
    rw [hpow] at h
    have hidx : w + 1 + m = (w + m) + 1 := by omega
    rw [hidx]
    unfold fromNatAux
    split
    · rename_i h0
      rw [ih (v / 3) (by omega)]
      rfl
    · split
      · rename_i hne h1
        rw [ih (v / 3) (by omega)]
        rfl
      · rename_i hne0 hne1
        have h2 : v % 3 = 2 := by omega
        rw [ih (v / 3 + 1) (by omega)]
        rfl

theorem fromIntList_value (w : Nat) (v : Int) (h : 2 * v.natAbs + 1 ≤ 3 ^ w) :
    value (fromIntList w v) = v := by
  unfold fromIntList
  split
  · rw [value_negList, fromNatAux_value w v.natAbs h]
    omega
  · rw [fromNatAux_value w v.natAbs h]
    omega

theorem value_append (l1 l2 : List Trit) :
    value (l1 ++ l2) = value l1 + 3 ^ l1.length * value l2 := by
  induction l1 with
  | nil => simp [value]
  | cons t r ih =>
    simp only [List.cons_append, value, List.append_eq, ih, List.length_cons, pow_succ]
    ring

theorem value_replicate_zero (m : Nat) : value (List.replicate m Trit.O) = 0 := by
  induction m with
  | zero => rfl
  | succ m ih => simp [List.replicate, value, ih, Trit.toInt]

theorem value_append_zeros (l : List Trit) (m : Nat) :
    value (l ++ List.replicate m Trit.O) = value l := by
  rw [value_append, value_replicate_zero]
  ring

theorem Tryte9.from_to (a : Tryte9) : Tryte9.from_i32 a.to_i32 = a := by
  have hb := value_bound a.val
  rw [a.prop] at hb
  apply Subtype.ext
  apply value_inj
  · show (fromIntList 9 (value a.val)).length = a.val.length
    rw [fromIntList_length, a.prop]
  · exact fromIntList_value 9 (value a.val) hb

theorem Tryte9.to_from_i32 (v : Int) (h : 2 * v.natAbs + 1 ≤ 3 ^ 9) :
    (Tryte9.from_i32 v).to_i32 = v :=
  fromIntList_value 9 v h

theorem Word18.to_from_i64 (v : Int) (h : 2 * v.natAbs + 1 ≤ 3 ^ 18) :
    (Word18.from_i64 v).to_i64 = v :=
  fromIntList_value 18 v h

theorem Tryte9.to_word18_to_i64 (a : Tryte9) : a.to_word18.to_i64 = a.to_i32 := by
  unfold Tryte9.to_word18 Word18.to_i64 Tryte9.to_i32
  exact value_append_zeros a.val 9

theorem all_zero_eq_replicate (l : List Trit) :
    l.all Trit.is_zero = true ↔ l = List.replicate l.length Trit.O := by
  induction l with
  | nil => simp
  | cons t rest ih =>
    cases t <;> simp [Trit.is_zero, List.replicate, ih]

theorem value_eq_zero_iff (l : List Trit) :
    value l = 0 ↔ l.all Trit.is_zero = true := by
  rw [all_zero_eq_replicate]
  constructor
  · intro h
    apply value_inj (by simp)
    rw [h, value_replicate_zero]
  · intro h
    rw [h, value_replicate_zero]

theorem Tryte9.to_word18_is_zero (a : Tryte9) :
    a.to_word18.is_zero = a.is_zero := by
  unfold Tryte9.to_word18 Word18.is_zero Tryte9.is_zero
  simp [List.all_append, Trit.is_zero]

/-- C1: the claim asserts that for every pair of 18-trit words,
to_i64(sum) + to_i8(carry)*3^18 equals to_i64(a) + to_i64(b).  The ripple
adder violates this identity: the carries of the two half adders inside
`Trit::full_add` are combined with `any`, which is wrong when both are
non-zero (inputs (P, P, N) and (N, N, P)).  Adding the word for 2 to
itself returns the word for 13 with carry O, not 4: the source comment
that the carries "can't both be non-zero" is false, so this is a bug in
the code rather than in the claim. -/
theorem add_violates_sum_identity :
    (add (Word18.from_i64 2) (Word18.from_i64 2)).1.to_i64 = 13 ∧
    (add (Word18.from_i64 2) (Word18.from_i64 2)).2 = Trit.O ∧
    ¬ ((add (Word18.from_i64 2) (Word18.from_i64 2)).1.to_i64 +
        ((add (Word18.from_i64 2) (Word18.from_i64 2)).2).toInt * 3 ^ 18 =
        (Word18.from_i64 2).to_i64 + (Word18.from_i64 2).to_i64) := by
  decide

/-- C5: the claim asserts to_i64(high)*3^18 + to_i64(low) = x * y exactly.
The schoolbook multiplier combines the carries of its two inner full
adds with `any`, which drops information when both are non-zero; at
x = 10, y = 20 the product buffer comes out as 281 instead of 200, so
the identity fails and the code contradicts the documented exactness. -/
theorem multiply_violates_product_identity :
    (multiply (Word18.from_i64 10) (Word18.from_i64 20)).1.to_i64 = 281 ∧
    (multiply (Word18.from_i64 10) (Word18.from_i64 20)).2.to_i64 = 0 ∧
    ¬ ((multiply (Word18.from_i64 10) (Word18.from_i64 20)).2.to_i64 * 3 ^ 18 +
        (multiply (Word18.from_i64 10) (Word18.from_i64 20)).1.to_i64 =
        (Word18.from_i64 10).to_i64 * (Word18.from_i64 20).to_i64) := by
  decide

/-- C4 counterexample: shift_right is not truncating division by 3^n.
Dropping the low trit of the word for 2 (trits N, P) leaves the word for
1, while the quotient of 2 by 3 truncated toward zero is 0. -/
theorem shift_right_truncation_counterexample :
    (shift_right (Word18.from_i64 2) 1).to_i64 = 1 ∧
    (shift_right (Word18.from_i64 2) 1).to_i64 ≠
      ((Word18.from_i64 2).to_i64).tdiv (3 ^ 1) := by
  decide

/-- C4 amended: for 0 <= n < 18, shift_right(a, n) is the multiple-free
rounding of a to the nearest multiple of 3^n, that is the unique q with
the discarded part a - q*3^n of magnitude at most (3^n - 1)/2 (dropping
low balanced-ternary digits rounds to nearest rather than truncating
toward zero); for n >= 18 the result is the zero word. -/
theorem shift_right_rounds_to_nearest (a : Word18) (n : Nat) :
    (n < 18 →
      2 * (a.to_i64 - (shift_right a n).to_i64 * 3 ^ n).natAbs + 1 ≤ 3 ^ n) ∧
    (18 ≤ n → shift_right a n = Word18.zero) := by
  constructor
  · intro hn
    have hlen : a.val.length = 18 := a.prop
    have h1 : (shift_right a n).to_i64 = value (a.val.drop n) := by
      unfold shift_right
      rw [dif_neg (by omega)]
      exact value_append_zeros _ n
    have htklen : (a.val.take n).length = n := by
      rw [List.length_take, hlen]
      omega
    have h2 : a.to_i64 = value (a.val.take n) + 3 ^ n * value (a.val.drop n) := by
      conv_lhs => rw [Word18.to_i64, ← List.take_append_drop n a.val]
      rw [value_append, htklen]
    have h3 : a.to_i64 - (shift_right a n).to_i64 * 3 ^ n = value (a.val.take n) := by
      rw [h1, h2]
      ring
    rw [h3]
    have hb := value_bound (a.val.take n)
    rw [htklen] at hb
    exact hb
  · intro hn
    unfold shift_right
    rw [dif_pos hn]

/-- Witness for the amended C4 at a = 2, n = 1. -/
theorem shift_right_rounds_to_nearest_witness :
    1 < 18 ∧
    2 * ((Word18.from_i64 2).to_i64 -
        (shift_right (Word18.from_i64 2) 1).to_i64 * 3 ^ 1).natAbs + 1 ≤ 3 ^ 1 :=
  ⟨by decide, (shift_right_rounds_to_nearest (Word18.from_i64 2) 1).1 (by decide)⟩

/-!
Instruction codec, from `src/cpu/decode.rs`.
-/

deriving instance DecidableEq for Except

/-- Address modification mode (`AddrMode`), keyed by one trit. -/
inductive AddrMode where
  | Direct
  | IndexAdd
  | IndexSub
deriving DecidableEq, Repr

def AddrMode.from_trit : Trit → AddrMode
  | Trit.O => AddrMode.Direct
  | Trit.P => AddrMode.IndexAdd
  | Trit.N => AddrMode.IndexSub

def AddrMode.to_trit : AddrMode → Trit
  | AddrMode.Direct => Trit.O
  | AddrMode.IndexAdd => Trit.P
  | AddrMode.IndexSub => Trit.N

theorem AddrMode.from_trit_to_trit (m : AddrMode) :
    AddrMode.from_trit m.to_trit = m := by
  cases m <;> rfl

/-- Decoded Setun instruction (`Instruction`), 25 variants.  The shift
count is the `i8` field of the source, modelled as an integer. -/
inductive Instruction where
  | Add (addr : Tryte9) (mode : AddrMode)
  | Sub (addr : Tryte9) (mode : AddrMode)
  | Mul (addr : Tryte9) (mode : AddrMode)
  | Div (addr : Tryte9) (mode : AddrMode)
  | AddAbs (addr : Tryte9) (mode : AddrMode)
  | SubAbs (addr : Tryte9) (mode : AddrMode)
  | Lda (addr : Tryte9) (mode : AddrMode)
  | Sta (addr : Tryte9) (mode : AddrMode)
  | LdaUnsigned (addr : Tryte9) (mode : AddrMode)
  | Ldf (addr : Tryte9) (mode : AddrMode)
  | Stf (addr : Tryte9) (mode : AddrMode)
  | Ldr (addr : Tryte9) (mode : AddrMode)
  | Str (addr : Tryte9) (mode : AddrMode)
  | Xchg (addr : Tryte9) (mode : AddrMode)
  | Jmp (addr : Tryte9) (mode : AddrMode)
  | Jz (addr : Tryte9) (mode : AddrMode)
  | Jp (addr : Tryte9) (mode : AddrMode)
  | Jn (addr : Tryte9) (mode : AddrMode)
  | Jop (addr : Tryte9) (mode : AddrMode)
  | Jon (addr : Tryte9) (mode : AddrMode)
  | Hlt
  | Shl (count : Int)
  | Shr (count : Int)
  | Nop
  | Tst
deriving DecidableEq, Repr

/-- Decode errors (`DecodeError`). -/
inductive DecodeError where
  | InvalidOpcode (v : Int)
  | FormatError
deriving DecidableEq, Repr

/-- Read trit i of a nitrit (array indexing in the source; all uses are
in bounds, the default is never returned). -/
def tget9 (w : Tryte9) (i : Nat) : Trit := w.val.getD i Trit.O

/-- Body of `decode` after field extraction: match the opcode value in
the source's arm order; the shift count is the `addr_val as i8` cast,
which is the identity because the 5-trit operand lies in [-121, 121]. -/
def decodeCore (op_val : Int) (modeTrit : Trit) (addr_val : Int) :
    Except DecodeError Instruction :=
  let mode := AddrMode.from_trit modeTrit
  let addr := Tryte9.from_i32 addr_val
  if op_val = 1 then .ok (.Add addr mode)
  else if op_val = -1 then .ok (.Sub addr mode)
  else if op_val = 2 then .ok (.Mul addr mode)
  else if op_val = -2 then .ok (.Div addr mode)
  else if op_val = 3 then .ok (.Lda addr mode)
  else if op_val = -3 then .ok (.Sta addr mode)
  else if op_val = -5 then .ok (.LdaUnsigned addr mode)
  else if op_val = 4 then .ok (.Ldf addr mode)
  else if op_val = -4 then .ok (.Stf addr mode)
  else if op_val = 10 then .ok (.Ldr addr mode)
  else if op_val = -10 then .ok (.Str addr mode)
  else if op_val = 12 then .ok (.Xchg addr mode)
  else if op_val = 11 then .ok (.AddAbs addr mode)
  else if op_val = -11 then .ok (.SubAbs addr mode)
  else if op_val = 5 then .ok (.Jmp addr mode)
  else if op_val = 6 then .ok (.Jz addr mode)
  else if op_val = 7 then .ok (.Jp addr mode)
  else if op_val = -7 then .ok (.Jn addr mode)
  else if op_val = 13 then .ok (.Jop addr mode)
  else if op_val = -13 then .ok (.Jon addr mode)
  else if op_val = 0 then .ok .Hlt
  else if op_val = 8 then .ok .Nop
  else if op_val = 14 then .ok .Tst
  else if op_val = 9 then .ok (.Shl addr_val)
  else if op_val = -9 then .ok (.Shr addr_val)
  else .error (.InvalidOpcode op_val)

/-- Decode a 9-trit instruction word (`decode`): opcode from trits 8..6,
mode from trit 5, operand address from trits 4..0. -/
def decode (w : Tryte9) : Except DecodeError Instruction :=
  decodeCore
    ((tget9 w 8).toInt * 9 + (tget9 w 7).toInt * 3 + (tget9 w 6).toInt)
    (tget9 w 5)
    ((tget9 w 4).toInt * 81 + (tget9 w 3).toInt * 27 + (tget9 w 2).toInt * 9 +
      (tget9 w 1).toInt * 3 + (tget9 w 0).toInt)

/-- Opcode field encoder of `encode`: three digit-loop iterations on the
magnitude, each trit negated when the opcode is negative.  A carry left
after the third digit is dropped, which is what wraps opcode +14 to -13. -/
def encodeOp3 (op : Int) : List Trit :=
  let mag := fromNatAux 3 op.natAbs
  if op < 0 then negList mag else mag

/-- Address field encoder of `encode`: five digit-loop iterations on the
magnitude; for a negative address the source then overwrites the five
trits with the low five trits of the proper `Tryte9::from_i32`
conversion, so the net effect in that branch is the take of that word. -/
def encodeAddr5 (addr : Int) : List Trit :=
  if addr < 0 then (fromIntList 9 addr).take 5
  else fromNatAux 5 addr.natAbs

theorem encodeOp3_length (op : Int) : (encodeOp3 op).length = 3 := by
  unfold encodeOp3
  split <;> simp [negList_length, fromNatAux_length]

theorem encodeAddr5_length (addr : Int) : (encodeAddr5 addr).length = 5 := by
  unfold encodeAddr5
  split
  · simp [fromIntList_length]
  · simp [fromNatAux_length]

/-- Assembly of the encoded instruction word: low five trits hold the
address, trit 5 the mode, trits 6..8 the opcode. -/
def encodeFields (op addr : Int) (m : AddrMode) : Tryte9 :=
  ⟨encodeAddr5 addr ++ m.to_trit :: encodeOp3 op, by
    simp [encodeAddr5_length, encodeOp3_length]⟩

/-- Encode an instruction back to a 9-trit word (`encode`), with the
opcode assignments of the source's `Opcode` table; HLT, NOP, TST and the
shifts encode with mode O (and address 0 for the first three). -/
def encode : Instruction → Tryte9
  | .Add a m => encodeFields 1 a.to_i32 m
  | .Sub a m => encodeFields (-1) a.to_i32 m
  | .Mul a m => encodeFields 2 a.to_i32 m
  | .Div a m => encodeFields (-2) a.to_i32 m
  | .Lda a m => encodeFields 3 a.to_i32 m
  | .Sta a m => encodeFields (-3) a.to_i32 m
  | .LdaUnsigned a m => encodeFields (-5) a.to_i32 m
  | .Ldf a m => encodeFields 4 a.to_i32 m
  | .Stf a m => encodeFields (-4) a.to_i32 m
  | .Ldr a m => encodeFields 10 a.to_i32 m
  | .Str a m => encodeFields (-10) a.to_i32 m
  | .Xchg a m => encodeFields 12 a.to_i32 m
  | .AddAbs a m => encodeFields 11 a.to_i32 m
  | .SubAbs a m => encodeFields (-11) a.to_i32 m
  | .Jmp a m => encodeFields 5 a.to_i32 m
  | .Jz a m => encodeFields 6 a.to_i32 m
  | .Jp a m => encodeFields 7 a.to_i32 m
  | .Jn a m => encodeFields (-7) a.to_i32 m
  | .Jop a m => encodeFields 13 a.to_i32 m
  | .Jon a m => encodeFields (-13) a.to_i32 m
  | .Hlt => encodeFields 0 0 .Direct
  | .Nop => encodeFields 8 0 .Direct
  | .Tst => encodeFields 14 0 .Direct
  | .Shl c => encodeFields 9 c .Direct
  | .Shr c => encodeFields (-9) c .Direct

theorem eq_of_length_five (l : List Trit) (h : l.length = 5) :
    ∃ x0 x1 x2 x3 x4, l = [x0, x1, x2, x3, x4] := by
  rcases l with _ | ⟨x0, l⟩
  · simp at h
  rcases l with _ | ⟨x1, l⟩
  · simp at h
  rcases l with _ | ⟨x2, l⟩
  · simp at h
  rcases l with _ | ⟨x3, l⟩
  · simp at h
  rcases l with _ | ⟨x4, l⟩
  · simp at h
  rcases l with _ | ⟨x5, l⟩
  · exact ⟨x0, x1, x2, x3, x4, rfl⟩
  · simp at h

theorem eq_of_length_three (l : List Trit) (h : l.length = 3) :
    ∃ y0 y1 y2, l = [y0, y1, y2] := by
  rcases l with _ | ⟨y0, l⟩
  · simp at h
  rcases l with _ | ⟨y1, l⟩
  · simp at h
  rcases l with _ | ⟨y2, l⟩
  · simp at h
  rcases l with _ | ⟨y3, l⟩
  · exact ⟨y0, y1, y2, rfl⟩
  · simp at h

theorem decode_mk (a5 o3 : List Trit) (m : Trit) (h5 : a5.length = 5)
    (h3 : o3.length = 3) (h : (a5 ++ m :: o3).length = 9) :
    decode ⟨a5 ++ m :: o3, h⟩ = decodeCore (value o3) m (value a5) := by
  obtain ⟨x0, x1, x2, x3, x4, rfl⟩ := eq_of_length_five a5 h5
  obtain ⟨y0, y1, y2, rfl⟩ := eq_of_length_three o3 h3
  have e1 : value [y0, y1, y2] = y2.toInt * 9 + y1.toInt * 3 + y0.toInt := by
    simp [value]
    ring
  have e2 : value [x0, x1, x2, x3, x4] =
      x4.toInt * 81 + x3.toInt * 27 + x2.toInt * 9 + x1.toInt * 3 + x0.toInt := by
    simp [value]
    ring
  rw [e1, e2]
  rfl

theorem encodeAddr5_value (v : Int) (h1 : -121 ≤ v) (h2 : v ≤ 121) :
    value (encodeAddr5 v) = v := by
  have h35 : (3 : Nat) ^ 5 = 243 := by norm_num
  have hb : 2 * v.natAbs + 1 ≤ 3 ^ 5 := by omega
  unfold encodeAddr5
  split
  · rename_i hneg
    unfold fromIntList
    rw [if_pos hneg]
    rw [show (9 : Nat) = 5 + 4 from rfl, fromNatAux_pad 4 5 v.natAbs hb]
    unfold negList
    rw [List.map_append]
    have hlen : (List.map Trit.neg (fromNatAux 5 v.natAbs)).length = 5 := by
      simp [fromNatAux_length]
    rw [List.take_left' hlen]
    have := value_negList (fromNatAux 5 v.natAbs)
    unfold negList at this
    rw [this, fromNatAux_value 5 v.natAbs hb]
    omega
  · rw [fromNatAux_value 5 v.natAbs hb]
    omega

theorem decode_encodeFields (op v : Int) (m : AddrMode)
    (hv1 : -121 ≤ v) (hv2 : v ≤ 121) :
    decode (encodeFields op v m) =
      decodeCore (value (encodeOp3 op)) m.to_trit v := by
  unfold encodeFields
  rw [decode_mk _ _ _ (encodeAddr5_length _) (encodeOp3_length _) _,
    encodeAddr5_value v hv1 hv2]

/-- Representable instructions in the sense of the claim: operand
addresses of address-carrying variants in [-121, 121], shift counts in
[-121, 121], no constraint on HLT, NOP and TST. -/
def representable : Instruction → Prop
  | .Add a _ | .Sub a _ | .Mul a _ | .Div a _ | .AddAbs a _ | .SubAbs a _
  | .Lda a _ | .Sta a _ | .LdaUnsigned a _ | .Ldf a _ | .Stf a _ | .Ldr a _
  | .Str a _ | .Xchg a _ | .Jmp a _ | .Jz a _ | .Jp a _ | .Jn a _ | .Jop a _
  | .Jon a _ => -121 ≤ a.to_i32 ∧ a.to_i32 ≤ 121
  | .Shl c | .Shr c => -121 ≤ c ∧ c ≤ 121
  | .Hlt | .Nop | .Tst => True

/-- C3 counterexample: the round-trip fails on the TST variant.  TST's
opcode is +14, outside the [-13, 13] range of a 3-trit field; the
encoder's three-iteration digit loop drops the final carry and writes
the trits of -13, so the encoded word decodes as JON with address 0 and
direct mode, not as TST. -/
theorem decode_encode_tst_counterexample :
    decode (encode Instruction.Tst) =
      Except.ok (Instruction.Jon (Tryte9.from_i32 0) AddrMode.Direct) ∧
    decode (encode Instruction.Tst) ≠ Except.ok Instruction.Tst := by
  decide

/-- C3 amended: decode(encode(i)) = Ok(i) for every representable
instruction except TST (whose opcode +14 cannot be represented in the
3-trit opcode field and wraps to JON's opcode -13 on encode). -/
theorem decode_encode_roundtrip (i : Instruction) (hrep : representable i)
    (hne : i ≠ Instruction.Tst) : decode (encode i) = Except.ok i := by
  cases i with
  | Add a m =>
    simp only [encode]
    rw [decode_encodeFields 1 a.to_i32 m hrep.1 hrep.2,
      show value (encodeOp3 1) = 1 by decide]
    simp [decodeCore, Tryte9.from_to, AddrMode.from_trit_to_trit]
  | Sub a m =>
    simp only [encode]
    rw [decode_encodeFields (-1) a.to_i32 m hrep.1 hrep.2,
      show value (encodeOp3 (-1)) = -1 by decide]
    simp [decodeCore, Tryte9.from_to, AddrMode.from_trit_to_trit]
  | Mul a m =>
    simp only [encode]
    rw [decode_encodeFields 2 a.to_i32 m hrep.1 hrep.2,
      show value (encodeOp3 2) = 2 by decide]
    simp [decodeCore, Tryte9.from_to, AddrMode.from_trit_to_trit]
  | Div a m =>
    simp only [encode]
    rw [decode_encodeFields (-2) a.to_i32 m hrep.1 hrep.2,
      show value (encodeOp3 (-2)) = -2 by decide]
    simp [decodeCore, Tryte9.from_to, AddrMode.from_trit_to_trit]
  | Lda a m =>
    simp only [encode]
    rw [decode_encodeFields 3 a.to_i32 m hrep.1 hrep.2,
      show value (encodeOp3 3) = 3 by decide]
    simp [decodeCore, Tryte9.from_to, AddrMode.from_trit_to_trit]
  | Sta a m =>
    simp only [encode]
    rw [decode_encodeFields (-3) a.to_i32 m hrep.1 hrep.2,
      show value (encodeOp3 (-3)) = -3 by decide]
    simp [decodeCore, Tryte9.from_to, AddrMode.from_trit_to_trit]
  | LdaUnsigned a m =>
    simp only [encode]
    rw [decode_encodeFields (-5) a.to_i32 m hrep.1 hrep.2,
      show value (encodeOp3 (-5)) = -5 by decide]
    simp [decodeCore, Tryte9.from_to, AddrMode.from_trit_to_trit]
  | Ldf a m =>
    simp only [encode]
    rw [decode_encodeFields 4 a.to_i32 m hrep.1 hrep.2,
      show value (encodeOp3 4) = 4 by decide]
    simp [decodeCore, Tryte9.from_to, AddrMode.from_trit_to_trit]
  | Stf a m =>
    simp only [encode]
    rw [decode_encodeFields (-4) a.to_i32 m hrep.1 hrep.2,
      show value (encodeOp3 (-4)) = -4 by decide]
    simp [decodeCore, Tryte9.from_to, AddrMode.from_trit_to_trit]
  | Ldr a m =>
    simp only [encode]
    rw [decode_encodeFields 10 a.to_i32 m hrep.1 hrep.2,
      show value (encodeOp3 10) = 10 by decide]
    simp [decodeCore, Tryte9.from_to, AddrMode.from_trit_to_trit]
  | Str a m =>
    simp only [encode]
    rw [decode_encodeFields (-10) a.to_i32 m hrep.1 hrep.2,
      show value (encodeOp3 (-10)) = -10 by decide]
    simp [decodeCore, Tryte9.from_to, AddrMode.from_trit_to_trit]
  | Xchg a m =>
    simp only [encode]
    rw [decode_encodeFields 12 a.to_i32 m hrep.1 hrep.2,
      show value (encodeOp3 12) = 12 by decide]
    simp [decodeCore, Tryte9.from_to, AddrMode.from_trit_to_trit]
  | AddAbs a m =>
    simp only [encode]
    rw [decode_encodeFields 11 a.to_i32 m hrep.1 hrep.2,
      show value (encodeOp3 11) = 11 by decide]
    simp [decodeCore, Tryte9.from_to, AddrMode.from_trit_to_trit]
  | SubAbs a m =>
    simp only [encode]
    rw [decode_encodeFields (-11) a.to_i32 m hrep.1 hrep.2,
      show value (encodeOp3 (-11)) = -11 by decide]
    simp [decodeCore, Tryte9.from_to, AddrMode.from_trit_to_trit]
  | Jmp a m =>
    simp only [encode]
    rw [decode_encodeFields 5 a.to_i32 m hrep.1 hrep.2,
      show value (encodeOp3 5) = 5 by decide]
    simp [decodeCore, Tryte9.from_to, AddrMode.from_trit_to_trit]
  | Jz a m =>
    simp only [encode]
    rw [decode_encodeFields 6 a.to_i32 m hrep.1 hrep.2,
      show value (encodeOp3 6) = 6 by decide]
    simp [decodeCore, Tryte9.from_to, AddrMode.from_trit_to_trit]
  | Jp a m =>
    simp only [encode]
    rw [decode_encodeFields 7 a.to_i32 m hrep.1 hrep.2,
      show value (encodeOp3 7) = 7 by decide]
    simp [decodeCore, Tryte9.from_to, AddrMode.from_trit_to_trit]
  | Jn a m =>
    simp only [encode]
    rw [decode_encodeFields (-7) a.to_i32 m hrep.1 hrep.2,
      show value (encodeOp3 (-7)) = -7 by decide]
    simp [decodeCore, Tryte9.from_to, AddrMode.from_trit_to_trit]
  | Jop a m =>
    simp only [encode]
    rw [decode_encodeFields 13 a.to_i32 m hrep.1 hrep.2,
      show value (encodeOp3 13) = 13 by decide]
    simp [decodeCore, Tryte9.from_to, AddrMode.from_trit_to_trit]
  | Jon a m =>
    simp only [encode]
    rw [decode_encodeFields (-13) a.to_i32 m hrep.1 hrep.2,
      show value (encodeOp3 (-13)) = -13 by decide]
    simp [decodeCore, Tryte9.from_to, AddrMode.from_trit_to_trit]
  | Hlt =>
    simp only [encode]
    rw [decode_encodeFields 0 0 .Direct (by norm_num) (by norm_num),
      show value (encodeOp3 0) = 0 by decide]
    simp [decodeCore]
  | Shl c =>
    simp only [encode]
    rw [decode_encodeFields 9 c .Direct hrep.1 hrep.2,
      show value (encodeOp3 9) = 9 by decide]
    simp [decodeCore]
  | Shr c =>
    simp only [encode]
    rw [decode_encodeFields (-9) c .Direct hrep.1 hrep.2,
      show value (encodeOp3 (-9)) = -9 by decide]
    simp [decodeCore]
  | Nop =>
    simp only [encode]
    rw [decode_encodeFields 8 0 .Direct (by norm_num) (by norm_num),
      show value (encodeOp3 8) = 8 by decide]
    simp [decodeCore]
  | Tst => exact absurd rfl hne

/-- Witness for the amended C3 at ADD with address 10 and index-add mode. -/
theorem decode_encode_roundtrip_witness :
    representable (Instruction.Add (Tryte9.from_i32 10) AddrMode.IndexAdd) ∧
    decode (encode (Instruction.Add (Tryte9.from_i32 10) AddrMode.IndexAdd)) =
      Except.ok (Instruction.Add (Tryte9.from_i32 10) AddrMode.IndexAdd) :=
  ⟨by constructor <;> decide,
   decode_encode_roundtrip (Instruction.Add (Tryte9.from_i32 10) AddrMode.IndexAdd)
     (by constructor <;> decide) (by decide)⟩

/-!
Memory, registers and the execution engine, from `src/cpu/memory.rs`,
`src/cpu/registers.rs` and `src/cpu/execute.rs`.
-/

/-- CPU execution state (`CpuState`). -/
inductive CpuState where
  | Running
  | Halted
  | Error
deriving DecidableEq, Repr

/-- Memory errors (`MemoryError`). -/
inductive MemoryError where
  | AddressOutOfRange (v : Int)
  | ProgramTooLarge (size available : Nat)
deriving DecidableEq, Repr

/-- Errors surfaced by `Cpu::step` (`CpuError`). -/
inductive CpuError where
  | NotRunning (s : CpuState)
  | MemoryError (e : MemoryError)
  | DecodeError (e : DecodeError)
  | DivisionByZero
  | Overflow
deriving DecidableEq, Repr

/-- The 162-cell memory (`Memory`). -/
abbrev Memory := { l : List Tryte9 // l.length = 162 }

def Memory.new : Memory := ⟨List.replicate 162 Tryte9.zero, by simp⟩

/-- Read a cell through a signed ternary address (`Memory::read_ternary`):
index = address + 81.  In the source a negative index wraps through the
`as usize` cast to a huge value and is rejected by the `index >=
MEMORY_SIZE` check, so exactly the indices in [0, 161] succeed; the two
conditions here model that.  The `getD` default is never returned. -/
def Memory.read_ternary (m : Memory) (addr : Tryte9) : Except MemoryError Tryte9 :=
  if 0 ≤ addr.to_i32 + 81 ∧ addr.to_i32 + 81 < 162 then
    .ok (m.val.getD (addr.to_i32 + 81).toNat Tryte9.zero)
  else .error (.AddressOutOfRange addr.to_i32)

/-- Write a cell through a signed ternary address (`Memory::write_ternary`). -/
def Memory.write_ternary (m : Memory) (addr : Tryte9) (v : Tryte9) :
    Except MemoryError Memory :=
  if 0 ≤ addr.to_i32 + 81 ∧ addr.to_i32 + 81 < 162 then
    .ok ⟨m.val.set (addr.to_i32 + 81).toNat v, by simp [m.prop]⟩
  else .error (.AddressOutOfRange addr.to_i32)

/-- The Setun register file (`Registers`). -/
structure Registers where
  s : Word18
  r : Word18
  f : Tryte5
  c : Tryte9
  omega : Trit
deriving DecidableEq, Repr

def Registers.new : Registers :=
  ⟨Word18.zero, Word18.zero, Tryte5.zero, Tryte9.zero, Trit.O⟩

def Registers.set_omega (regs : Registers) (sign : Trit) : Registers :=
  { regs with omega := sign }

/-- Advance the program counter by one cell (`Registers::advance_pc`);
the source asserts the incremented value fits a Tryte9. -/
def Registers.advance_pc (regs : Registers) : Registers :=
  { regs with c := Tryte9.from_i32 (regs.c.to_i32 + 1) }

def Registers.jump (regs : Registers) (addr : Tryte9) : Registers :=
  { regs with c := addr }

/-- Effective address computation (`Registers::effective_address`):
base + F for mode P, base for mode O, base - F for mode N. -/
def Registers.effective_address (regs : Registers) (base : Tryte9) (mode : Trit) : Tryte9 :=
  Tryte9.from_i32 (match mode with
    | Trit.P => base.to_i32 + regs.f.to_i32
    | Trit.O => base.to_i32
    | Trit.N => base.to_i32 - regs.f.to_i32)

/-- The Setun CPU (`Cpu`). -/
structure Cpu where
  regs : Registers
  mem : Memory
  state : CpuState
  cycles : Nat
  last_instr : Option Instruction
deriving DecidableEq, Repr

/-- A fresh CPU with zeroed state (`Cpu::new`). -/
def Cpu.new : Cpu := ⟨Registers.new, Memory.new, CpuState.Running, 0, none⟩

/-- Load a memory word zero-extended to 18 trits (`Cpu::load_word`). -/
def Cpu.load_word (cpu : Cpu) (addr : Tryte9) : Except CpuError Word18 :=
  match cpu.mem.read_ternary addr with
  | .error e => .error (.MemoryError e)
  | .ok v => .ok v.to_word18

/-- Cast of the `i8` shift count to `usize` in the Shl/Shr arms
(`count as usize`): the value is reinterpreted modulo 2^64, so every
negative count becomes at least 2^64 - 128. -/
def i8_as_usize (c : Int) : Nat := (c % (2 : Int) ^ 64).toNat

/-- Execute a decoded instruction (`Cpu::execute`).  The Rust method
mutates `self` and returns `Result<(), CpuError>`; here it returns the
updated CPU paired with that result.  In every arm the fallible memory
accesses happen before any register or memory mutation, so an error
leaves the CPU unchanged, which the pairs below make explicit. -/
def Cpu.execute (cpu : Cpu) : Instruction → Cpu × Except CpuError Unit
  | .Add addr mode =>
    match cpu.load_word (cpu.regs.effective_address addr mode.to_trit) with
    | .error e => (cpu, .error e)
    | .ok operand =>
      let regs := { cpu.regs with s := (add cpu.regs.s operand).1 }
      ({ cpu with regs := regs.set_omega regs.s.sign }, .ok ())
  | .Sub addr mode =>
    match cpu.load_word (cpu.regs.effective_address addr mode.to_trit) with
    | .error e => (cpu, .error e)
    | .ok operand =>
      let regs := { cpu.regs with s := (subtract cpu.regs.s operand).1 }
      ({ cpu with regs := regs.set_omega regs.s.sign }, .ok ())
  | .Mul addr mode =>
    match cpu.load_word (cpu.regs.effective_address addr mode.to_trit) with
    | .error e => (cpu, .error e)
    | .ok operand =>
      let regs := { cpu.regs with
        s := (multiply cpu.regs.s operand).2,
        r := (multiply cpu.regs.s operand).1 }
      ({ cpu with regs := regs.set_omega regs.s.sign }, .ok ())
  | .Div addr mode =>
    match cpu.load_word (cpu.regs.effective_address addr mode.to_trit) with
    | .error e => (cpu, .error e)
    | .ok divisor =>
      if divisor.is_zero then (cpu, .error .DivisionByZero)
      else
        let regs := { cpu.regs with
          s := Word18.from_i64 ((cpu.regs.s.to_i64).tdiv divisor.to_i64),
          r := Word18.from_i64 ((cpu.regs.s.to_i64).tmod divisor.to_i64) }
        ({ cpu with regs := regs.set_omega regs.s.sign }, .ok ())
  | .AddAbs addr mode =>
    match cpu.load_word (cpu.regs.effective_address addr mode.to_trit) with
    | .error e => (cpu, .error e)
    | .ok operand =>
      let abs_operand := if operand.sign = Trit.N then operand.neg else operand
      let regs := { cpu.regs with s := (add cpu.regs.s abs_operand).1 }
      ({ cpu with regs := regs.set_omega regs.s.sign }, .ok ())
  | .SubAbs addr mode =>
    match cpu.load_word (cpu.regs.effective_address addr mode.to_trit) with
    | .error e => (cpu, .error e)
    | .ok operand =>
      let abs_operand := if operand.sign = Trit.N then operand.neg else operand
      let regs := { cpu.regs with s := (subtract cpu.regs.s abs_operand).1 }
      ({ cpu with regs := regs.set_omega regs.s.sign }, .ok ())
  | .Lda addr mode =>
    match cpu.mem.read_ternary (cpu.regs.effective_address addr mode.to_trit) with
    | .error e => (cpu, .error (.MemoryError e))
    | .ok v =>
      let regs := { cpu.regs with s := v.to_word18 }
      ({ cpu with regs := regs.set_omega regs.s.sign }, .ok ())
  | .LdaUnsigned addr mode =>
    match cpu.mem.read_ternary (cpu.regs.effective_address addr mode.to_trit) with
    | .error e => (cpu, .error (.MemoryError e))
    | .ok v =>
      let regs := { cpu.regs with s := v.to_word18 }
      ({ cpu with regs := regs.set_omega regs.s.sign }, .ok ())
  | .Sta addr mode =>
    match cpu.mem.write_ternary (cpu.regs.effective_address addr mode.to_trit)
        cpu.regs.s.low with
    | .error e => (cpu, .error (.MemoryError e))
    | .ok mem2 => ({ cpu with mem := mem2 }, .ok ())
  | .Ldf addr mode =>
    match cpu.mem.read_ternary (cpu.regs.effective_address addr mode.to_trit) with
    | .error e => (cpu, .error (.MemoryError e))
    | .ok v =>
      let fval := (tget9 v 0).toInt * 1 + (tget9 v 1).toInt * 3 + (tget9 v 2).toInt * 9 +
        (tget9 v 3).toInt * 27 + (tget9 v 4).toInt * 81
      ({ cpu with regs := { cpu.regs with f := Tryte5.from_i32 fval } }, .ok ())
  | .Stf addr mode =>
    match cpu.mem.write_ternary (cpu.regs.effective_address addr mode.to_trit)
        cpu.regs.f.to_tryte9 with
    | .error e => (cpu, .error (.MemoryError e))
    | .ok mem2 => ({ cpu with mem := mem2 }, .ok ())
  | .Ldr addr mode =>
    match cpu.mem.read_ternary (cpu.regs.effective_address addr mode.to_trit) with
    | .error e => (cpu, .error (.MemoryError e))
    | .ok v => ({ cpu with regs := { cpu.regs with r := v.to_word18 } }, .ok ())
  | .Str addr mode =>
    match cpu.mem.write_ternary (cpu.regs.effective_address addr mode.to_trit)
        cpu.regs.r.low with
    | .error e => (cpu, .error (.MemoryError e))
    | .ok mem2 => ({ cpu with mem := mem2 }, .ok ())
  | .Xchg addr mode =>
    match cpu.mem.read_ternary (cpu.regs.effective_address addr mode.to_trit) with
    | .error e => (cpu, .error (.MemoryError e))
    | .ok mem_value =>
      match cpu.mem.write_ternary (cpu.regs.effective_address addr mode.to_trit)
          cpu.regs.s.low with
      | .error e => (cpu, .error (.MemoryError e))
      | .ok mem2 =>
        let regs := { cpu.regs with s := mem_value.to_word18 }
        ({ cpu with mem := mem2, regs := regs.set_omega regs.s.sign }, .ok ())
  | .Jmp addr mode =>
    ({ cpu with regs := cpu.regs.jump (cpu.regs.effective_address addr mode.to_trit) },
      .ok ())
  | .Jz addr mode =>
    if cpu.regs.s.is_zero then
      ({ cpu with regs := cpu.regs.jump (cpu.regs.effective_address addr mode.to_trit) },
        .ok ())
    else (cpu, .ok ())
  | .Jp addr mode =>
    if cpu.regs.s.sign = Trit.P then
      ({ cpu with regs := cpu.regs.jump (cpu.regs.effective_address addr mode.to_trit) },
        .ok ())
    else (cpu, .ok ())
  | .Jn addr mode =>
    if cpu.regs.s.sign = Trit.N then
      ({ cpu with regs := cpu.regs.jump (cpu.regs.effective_address addr mode.to_trit) },
        .ok ())
    else (cpu, .ok ())
  | .Jop addr mode =>
    if cpu.regs.omega = Trit.P then
      ({ cpu with regs := cpu.regs.jump (cpu.regs.effective_address addr mode.to_trit) },
        .ok ())
    else (cpu, .ok ())
  | .Jon addr mode =>
    if cpu.regs.omega = Trit.N then
      ({ cpu with regs := cpu.regs.jump (cpu.regs.effective_address addr mode.to_trit) },
        .ok ())
    else (cpu, .ok ())
  | .Hlt => ({ cpu with state := CpuState.Halted }, .ok ())
  | .Shl count =>
    let regs := { cpu.regs with s := shift_left cpu.regs.s (i8_as_usize count) }
    ({ cpu with regs := regs.set_omega regs.s.sign }, .ok ())
  | .Shr count =>
    let regs := { cpu.regs with s := shift_right cpu.regs.s (i8_as_usize count) }
    ({ cpu with regs := regs.set_omega regs.s.sign }, .ok ())
  | .Nop => (cpu, .ok ())
  | .Tst => ({ cpu with regs := cpu.regs.set_omega cpu.regs.s.sign }, .ok ())

/-- One fetch-decode-execute cycle (`Cpu::step`): refuse when not
Running; fetch at C; advance the PC before decode; decode; execute;
count the cycle and remember the instruction.  As in the source, the
returned CPU keeps the advanced PC when decode or execute fails, and no
error path assigns the Error state. -/
def Cpu.step (cpu : Cpu) : Cpu × Except CpuError Instruction :=
  if cpu.state ≠ CpuState.Running then (cpu, .error (.NotRunning cpu.state))
  else
    match cpu.mem.read_ternary cpu.regs.c with
    | .error e => (cpu, .error (.MemoryError e))
    | .ok raw =>
      match decode raw with
      | .error e => ({ cpu with regs := cpu.regs.advance_pc }, .error (.DecodeError e))
      | .ok instr =>
        match ({ cpu with regs := cpu.regs.advance_pc } : Cpu).execute instr with
        | (cpu2, .error e) => (cpu2, .error e)
        | (cpu2, .ok _) =>
          ({ cpu2 with cycles := cpu2.cycles + 1, last_instr := some instr }, .ok instr)

/-!
Theorems about the execution engine.
-/

/-- C9: once the engine is Halted, step returns the NotRunning error and
returns the CPU completely unchanged: registers, all 162 memory cells,
the cycle counter and the run state; no fetch is performed. -/
theorem step_halted_noop (cpu : Cpu) (h : cpu.state = CpuState.Halted) :
    cpu.step = (cpu, Except.error (CpuError.NotRunning CpuState.Halted)) := by
  unfold Cpu.step
  rw [h]
  rfl

/-- Witness for C9 on a fresh CPU put in the Halted state. -/
theorem step_halted_noop_witness :
    ({ Cpu.new with state := CpuState.Halted } : Cpu).step =
      ({ Cpu.new with state := CpuState.Halted },
        Except.error (CpuError.NotRunning CpuState.Halted)) :=
  step_halted_noop { Cpu.new with state := CpuState.Halted } rfl

/-- A word whose opcode field (trits 8..6) holds the unassigned value -6. -/
def invalidOpcodeWord : Tryte9 :=
  ⟨[Trit.O, Trit.O, Trit.O, Trit.O, Trit.O, Trit.O, Trit.O, Trit.P, Trit.N], rfl⟩

/-- A fresh CPU whose cell at machine address 0 (index 81) holds that word. -/
def cpuWithInvalidOpcode : Cpu :=
  { Cpu.new with
    mem := ⟨(List.replicate 162 Tryte9.zero).set 81 invalidOpcodeWord, by simp⟩ }

/-- C2: the claim says every fatal error sets run_state = Error before
step returns.  The code declares the Error state but never assigns it:
on this CPU, step returns DecodeError::InvalidOpcode(-6) while the state
is still Running (the same holds for the other fatal errors; no
assignment `state = CpuState::Error` exists anywhere in the engine). -/
theorem step_fatal_error_keeps_running :
    cpuWithInvalidOpcode.step.2 =
      Except.error (CpuError.DecodeError (DecodeError.InvalidOpcode (-6))) ∧
    cpuWithInvalidOpcode.step.1.state = CpuState.Running := by
  decide

/-- C10: a SHL or SHR whose decoded count is negative (any i8 value in
[-128, -1], which is what a negative 5-trit operand field decodes to)
zeroes S: `count as usize` reinterprets the count modulo 2^64, giving at
least 2^64 - 128 >= 18, and shifting 18 or more positions yields zero. -/
theorem shift_negative_count_zeroes (cpu : Cpu) (c : Int)
    (h1 : -128 ≤ c) (h2 : c < 0) :
    (cpu.execute (Instruction.Shl c)).1.regs.s = Word18.zero ∧
    (cpu.execute (Instruction.Shr c)).1.regs.s = Word18.zero ∧
    (cpu.execute (Instruction.Shl c)).2 = Except.ok () ∧
    (cpu.execute (Instruction.Shr c)).2 = Except.ok () := by
  have hcast : 18 ≤ i8_as_usize c := by
    unfold i8_as_usize
    have hk : (2 : Int) ^ 64 = 18446744073709551616 := by norm_num
    rw [hk]
    have hm : c % 18446744073709551616 = c + 18446744073709551616 := by omega
    rw [hm]
    omega
  have hshl : shift_left cpu.regs.s (i8_as_usize c) = Word18.zero := by
    unfold shift_left
    rw [dif_pos hcast]
  have hshr : shift_right cpu.regs.s (i8_as_usize c) = Word18.zero := by
    unfold shift_right
    rw [dif_pos hcast]
  refine ⟨?_, ?_, rfl, rfl⟩
  · simp [Cpu.execute, Registers.set_omega, hshl]
  · simp [Cpu.execute, Registers.set_omega, hshr]

/-- Witness for C10 with count -1 on a fresh CPU. -/
theorem shift_negative_count_zeroes_witness :
    -128 ≤ (-1 : Int) ∧
    ((Cpu.new.execute (Instruction.Shl (-1))).1.regs.s = Word18.zero ∧
      (Cpu.new.execute (Instruction.Shr (-1))).1.regs.s = Word18.zero ∧
      (Cpu.new.execute (Instruction.Shl (-1))).2 = Except.ok () ∧
      (Cpu.new.execute (Instruction.Shr (-1))).2 = Except.ok ()) :=
  ⟨by norm_num, shift_negative_count_zeroes Cpu.new (-1) (by norm_num) (by norm_num)⟩

theorem neg_tmod (a b : Int) : (-a).tmod b = -(a.tmod b) := by
  rw [Int.tmod_def, Int.tmod_def, Int.neg_tdiv]
  ring

theorem tmod_abs_divisor (a b : Int) : a.tmod b = a.tmod (b.natAbs : Int) := by
  rcases le_or_lt 0 b with h | h
  · rw [Int.natAbs_of_nonneg h]
  · have hn : (b.natAbs : Int) = -b := by omega
    rw [hn, Int.tmod_neg]

/-- The truncating remainder has magnitude below the divisor's and takes
the dividend's sign (or is zero); this is the behaviour of Rust's `%`,
which the DIV instruction uses. -/
theorem tmod_facts (a b : Int) (hb : b ≠ 0) :
    (a.tmod b).natAbs < b.natAbs ∧
    (a.tmod b = 0 ∨ (a.tmod b).sign = a.sign) := by
  have hwpos : (0 : Int) < (b.natAbs : Int) := by omega
  have habs : a.tmod b = a.tmod (b.natAbs : Int) := tmod_abs_divisor a b
  rcases le_or_lt 0 a with ha | ha
  · have he : a.tmod (b.natAbs : Int) = a % (b.natAbs : Int) :=
      Int.tmod_eq_emod ha (le_of_lt hwpos)
    have h0 : 0 ≤ a % (b.natAbs : Int) := Int.emod_nonneg a (by omega)
    have h1 : a % (b.natAbs : Int) < (b.natAbs : Int) := Int.emod_lt_of_pos a hwpos
    constructor
    · rw [habs, he]
      omega
    · rcases eq_or_lt_of_le h0 with h2 | h2
      · left
        rw [habs, he, ← h2]
      · right
        have ha2 : 0 < a := by
          rcases eq_or_lt_of_le ha with h3 | h3
          · rw [← h3, Int.zero_emod] at h2
            omega
          · exact h3
        rw [habs, he, Int.sign_eq_one_iff_pos.mpr h2, Int.sign_eq_one_iff_pos.mpr ha2]
  · have hna : 0 ≤ -a := by omega
    have he : (-a).tmod (b.natAbs : Int) = (-a) % (b.natAbs : Int) :=
      Int.tmod_eq_emod hna (le_of_lt hwpos)
    have hnm : a.tmod (b.natAbs : Int) = -((-a).tmod (b.natAbs : Int)) := by
      rw [neg_tmod]
      ring
    have h0 : 0 ≤ (-a) % (b.natAbs : Int) := Int.emod_nonneg _ (by omega)
    have h1 : (-a) % (b.natAbs : Int) < (b.natAbs : Int) := Int.emod_lt_of_pos _ hwpos
    constructor
    · rw [habs, hnm, he]
      omega
    · rcases eq_or_lt_of_le h0 with h2 | h2
      · left
        rw [habs, hnm, he, ← h2]
        ring
      · right
        rw [habs, hnm, he, Int.sign_eq_neg_one_iff_neg.mpr (by omega),
          Int.sign_eq_neg_one_iff_neg.mpr ha]

theorem read_ternary_ok_bounds (m : Memory) (a v : Tryte9)
    (h : m.read_ternary a = Except.ok v) : -81 ≤ a.to_i32 ∧ a.to_i32 ≤ 80 := by
  unfold Memory.read_ternary at h
  split at h
  · rename_i hc
    omega
  · simp at h

/-- C6: executing DIV whose effective-address cell holds a non-zero
value v sets S to the quotient of the old S by v truncated toward zero
and R to the remainder, so old_S = new_S * v + R with |R| < |v| and R
zero or of the dividend's sign; executing DIV on a zero cell returns the
DivisionByZero error and leaves the whole CPU, in particular S and R,
unchanged. -/
theorem div_execute_correct (cpu : Cpu) (addr : Tryte9) (mode : AddrMode)
    (cell : Tryte9)
    (hread : cpu.mem.read_ternary (cpu.regs.effective_address addr mode.to_trit) =
      Except.ok cell) :
    (cell.is_zero = true →
      cpu.execute (Instruction.Div addr mode) =
        (cpu, Except.error CpuError.DivisionByZero)) ∧
    (cell.is_zero = false →
      (cpu.execute (Instruction.Div addr mode)).2 = Except.ok () ∧
      (cpu.execute (Instruction.Div addr mode)).1.regs.s.to_i64 =
        (cpu.regs.s.to_i64).tdiv cell.to_i32 ∧
      (cpu.execute (Instruction.Div addr mode)).1.regs.r.to_i64 =
        (cpu.regs.s.to_i64).tmod cell.to_i32 ∧
      cpu.regs.s.to_i64 =
        (cpu.execute (Instruction.Div addr mode)).1.regs.s.to_i64 * cell.to_i32 +
          (cpu.execute (Instruction.Div addr mode)).1.regs.r.to_i64 ∧
      ((cpu.execute (Instruction.Div addr mode)).1.regs.r.to_i64).natAbs <
        cell.to_i32.natAbs ∧
      ((cpu.execute (Instruction.Div addr mode)).1.regs.r.to_i64 = 0 ∨
        ((cpu.execute (Instruction.Div addr mode)).1.regs.r.to_i64).sign =
          (cpu.regs.s.to_i64).sign)) := by
  have hload : cpu.load_word (cpu.regs.effective_address addr mode.to_trit) =
      Except.ok cell.to_word18 := by
    unfold Cpu.load_word
    rw [hread]
  constructor
  · intro hz
    have hz2 : cell.to_word18.is_zero = true := by
      rw [Tryte9.to_word18_is_zero, hz]
    simp [Cpu.execute, hload, hz2]
  · intro hz
    have hz2 : cell.to_word18.is_zero = false := by
      rw [Tryte9.to_word18_is_zero, hz]
    have hv : cell.to_word18.to_i64 = cell.to_i32 := Tryte9.to_word18_to_i64 cell
    have hvne : cell.to_i32 ≠ 0 := by
      intro h0
      have hall := (value_eq_zero_iff cell.val).mp h0
      simp [Tryte9.is_zero, hall] at hz
    have hexec : cpu.execute (Instruction.Div addr mode) =
        ({ cpu with regs := { cpu.regs with
            s := Word18.from_i64 ((cpu.regs.s.to_i64).tdiv cell.to_i32),
            r := Word18.from_i64 ((cpu.regs.s.to_i64).tmod cell.to_i32),
            omega := (Word18.from_i64 ((cpu.regs.s.to_i64).tdiv cell.to_i32)).sign } },
          Except.ok ()) := by
      simp [Cpu.execute, hload, hz2, hv, Registers.set_omega]
    rw [hexec]
    dsimp only
    have hbS : 2 * (cpu.regs.s.to_i64).natAbs + 1 ≤ 3 ^ 18 := by
      have hb := value_bound cpu.regs.s.val
      rw [cpu.regs.s.prop] at hb
      exact hb
    have hbv : 2 * cell.to_i32.natAbs + 1 ≤ 3 ^ 9 := by
      have hb := value_bound cell.val
      rw [cell.prop] at hb
      exact hb
    have h918 : (3 : Nat) ^ 9 ≤ 3 ^ 18 := by norm_num
    have hq : (Word18.from_i64 ((cpu.regs.s.to_i64).tdiv cell.to_i32)).to_i64 =
        (cpu.regs.s.to_i64).tdiv cell.to_i32 := by
      apply Word18.to_from_i64
      have hd : ((cpu.regs.s.to_i64).tdiv cell.to_i32).natAbs ≤
          (cpu.regs.s.to_i64).natAbs := by
        rw [Int.natAbs_tdiv]
        exact Nat.div_le_self _ _
      omega
    have hfacts := tmod_facts (cpu.regs.s.to_i64) cell.to_i32 hvne
    have hr : (Word18.from_i64 ((cpu.regs.s.to_i64).tmod cell.to_i32)).to_i64 =
        (cpu.regs.s.to_i64).tmod cell.to_i32 := by
      apply Word18.to_from_i64
      have := hfacts.1
      omega
    refine ⟨rfl, hq, hr, ?_, ?_, ?_⟩
    · rw [hq, hr]
      have h := Int.tdiv_add_tmod (cpu.regs.s.to_i64) cell.to_i32
      rw [mul_comm] at h
      exact h.symm
    · rw [hr]
      exact hfacts.1
    · rw [hr]
      exact hfacts.2

/-- A CPU with S = 7 and the cell at machine address 1 holding 2. -/
def cpuDiv : Cpu :=
  { Cpu.new with
    regs := { Registers.new with s := Word18.from_i64 7 },
    mem := ⟨(List.replicate 162 Tryte9.zero).set 82 (Tryte9.from_i32 2), by simp⟩ }

/-- Witness for C6, dividing 7 by 2 (quotient 3, remainder 1). -/
theorem div_execute_correct_witness :
    (Tryte9.from_i32 2).is_zero = false ∧
    ((cpuDiv.execute (Instruction.Div (Tryte9.from_i32 1) AddrMode.Direct)).2 =
        Except.ok () ∧
      (cpuDiv.execute (Instruction.Div (Tryte9.from_i32 1) AddrMode.Direct)).1.regs.s.to_i64 =
        (cpuDiv.regs.s.to_i64).tdiv (Tryte9.from_i32 2).to_i32 ∧
      (cpuDiv.execute (Instruction.Div (Tryte9.from_i32 1) AddrMode.Direct)).1.regs.r.to_i64 =
        (cpuDiv.regs.s.to_i64).tmod (Tryte9.from_i32 2).to_i32 ∧
      cpuDiv.regs.s.to_i64 =
        (cpuDiv.execute (Instruction.Div (Tryte9.from_i32 1) AddrMode.Direct)).1.regs.s.to_i64 *
            (Tryte9.from_i32 2).to_i32 +
          (cpuDiv.execute (Instruction.Div (Tryte9.from_i32 1) AddrMode.Direct)).1.regs.r.to_i64 ∧
      ((cpuDiv.execute (Instruction.Div (Tryte9.from_i32 1) AddrMode.Direct)).1.regs.r.to_i64).natAbs <
        (Tryte9.from_i32 2).to_i32.natAbs ∧
      ((cpuDiv.execute (Instruction.Div (Tryte9.from_i32 1) AddrMode.Direct)).1.regs.r.to_i64 = 0 ∨
        ((cpuDiv.execute (Instruction.Div (Tryte9.from_i32 1) AddrMode.Direct)).1.regs.r.to_i64).sign =
          (cpuDiv.regs.s.to_i64).sign)) :=
  ⟨rfl,
   (div_execute_correct cpuDiv (Tryte9.from_i32 1) AddrMode.Direct (Tryte9.from_i32 2)
     (by decide)).2 rfl⟩

/-- The instructions marked with a star in the spec, which update Ω:
ADD, SUB, MUL, DIV, ADDABS, SUBABS, LDA, LDAU, XCHG, SHL, SHR, TST. -/
def isStarred : Instruction → Bool
  | .Add _ _ | .Sub _ _ | .Mul _ _ | .Div _ _ | .AddAbs _ _ | .SubAbs _ _
  | .Lda _ _ | .LdaUnsigned _ _ | .Xchg _ _ | .Shl _ | .Shr _ | .Tst => true
  | _ => false

/-- After a successful execute of any starred instruction, Ω equals the
sign of the (new) S. -/
theorem execute_starred_omega (cpu : Cpu) (i : Instruction)
    (hs : isStarred i = true) (hok : (cpu.execute i).2 = Except.ok ()) :
    (cpu.execute i).1.regs.omega = (cpu.execute i).1.regs.s.sign := by
  cases i with
  | Add addr mode =>
    cases hload : cpu.load_word (cpu.regs.effective_address addr mode.to_trit) with
    | error e => simp [Cpu.execute, hload] at hok
    | ok v => simp [Cpu.execute, hload, Registers.set_omega]
  | Sub addr mode =>
    cases hload : cpu.load_word (cpu.regs.effective_address addr mode.to_trit) with
    | error e => simp [Cpu.execute, hload] at hok
    | ok v => simp [Cpu.execute, hload, Registers.set_omega]
  | Mul addr mode =>
    cases hload : cpu.load_word (cpu.regs.effective_address addr mode.to_trit) with
    | error e => simp [Cpu.execute, hload] at hok
    | ok v => simp [Cpu.execute, hload, Registers.set_omega]
  | Div addr mode =>
    cases hload : cpu.load_word (cpu.regs.effective_address addr mode.to_trit) with
    | error e => simp [Cpu.execute, hload] at hok
    | ok v =>
      cases hz : v.is_zero with
      | true => simp [Cpu.execute, hload, hz] at hok
      | false => simp [Cpu.execute, hload, hz, Registers.set_omega]
  | AddAbs addr mode =>
    cases hload : cpu.load_word (cpu.regs.effective_address addr mode.to_trit) with
    | error e => simp [Cpu.execute, hload] at hok
    | ok v => simp [Cpu.execute, hload, Registers.set_omega]
  | SubAbs addr mode =>
    cases hload : cpu.load_word (cpu.regs.effective_address addr mode.to_trit) with
    | error e => simp [Cpu.execute, hload] at hok
    | ok v => simp [Cpu.execute, hload, Registers.set_omega]
  | Lda addr mode =>
    cases hread : cpu.mem.read_ternary (cpu.regs.effective_address addr mode.to_trit) with
    | error e => simp [Cpu.execute, hread] at hok
    | ok v => simp [Cpu.execute, hread, Registers.set_omega]
  | LdaUnsigned addr mode =>
    cases hread : cpu.mem.read_ternary (cpu.regs.effective_address addr mode.to_trit) with
    | error e => simp [Cpu.execute, hread] at hok
    | ok v => simp [Cpu.execute, hread, Registers.set_omega]
  | Xchg addr mode =>
    cases hread : cpu.mem.read_ternary (cpu.regs.effective_address addr mode.to_trit) with
    | error e => simp [Cpu.execute, hread] at hok
    | ok v =>
      cases hw : cpu.mem.write_ternary (cpu.regs.effective_address addr mode.to_trit)
          cpu.regs.s.low with
      | error e => simp [Cpu.execute, hread, hw] at hok
      | ok m2 => simp [Cpu.execute, hread, hw, Registers.set_omega]
  | Shl c => simp [Cpu.execute, Registers.set_omega]
  | Shr c => simp [Cpu.execute, Registers.set_omega]
  | Tst => simp [Cpu.execute, Registers.set_omega]
  | Sta addr mode => simp [isStarred] at hs
  | Ldf addr mode => simp [isStarred] at hs
  | Stf addr mode => simp [isStarred] at hs
  | Ldr addr mode => simp [isStarred] at hs
  | Str addr mode => simp [isStarred] at hs
  | Jmp addr mode => simp [isStarred] at hs
  | Jz addr mode => simp [isStarred] at hs
  | Jp addr mode => simp [isStarred] at hs
  | Jn addr mode => simp [isStarred] at hs
  | Jop addr mode => simp [isStarred] at hs
  | Jon addr mode => simp [isStarred] at hs
  | Hlt => simp [isStarred] at hs
  | Nop => simp [isStarred] at hs

/-- Inversion of a successful step: the CPU was Running, the fetch at C
succeeded, the fetched word decoded to the returned instruction, the
execute on the PC-advanced CPU succeeded, and the final CPU is that
execute result with the cycle counter bumped and the instruction
remembered. -/
theorem step_ok_inv (cpu cpu' : Cpu) (i : Instruction)
    (h : cpu.step = (cpu', Except.ok i)) :
    cpu.state = CpuState.Running ∧
    ∃ raw, cpu.mem.read_ternary cpu.regs.c = Except.ok raw ∧
      decode raw = Except.ok i ∧
      (({ cpu with regs := cpu.regs.advance_pc } : Cpu).execute i).2 = Except.ok () ∧
      cpu' = { (({ cpu with regs := cpu.regs.advance_pc } : Cpu).execute i).1 with
        cycles := (({ cpu with regs := cpu.regs.advance_pc } : Cpu).execute i).1.cycles + 1,
        last_instr := some i } := by
  unfold Cpu.step at h
  split at h
  · simp at h
  · rename_i hrun
    split at h
    · simp at h
    · rename_i raw hread
      split at h
      · simp at h
      · rename_i instr hdec
        split at h
        · simp at h
        · rename_i cpu2 u hexec
          rw [Prod.mk.injEq] at h
          obtain ⟨hcpu, hok⟩ := h
          injection hok with hins
          subst hins
          refine ⟨by push_neg at hrun; exact hrun, raw, hread, hdec, ?_, ?_⟩
          · rw [hexec]
          · rw [← hcpu, hexec]

/-- C7: immediately after the engine successfully executes any starred
instruction through step, Ω equals the sign of S. -/
theorem step_starred_omega (cpu cpu' : Cpu) (i : Instruction)
    (h : cpu.step = (cpu', Except.ok i)) (hs : isStarred i = true) :
    cpu'.regs.omega = cpu'.regs.s.sign := by
  obtain ⟨-, raw, -, -, hexec, rfl⟩ := step_ok_inv cpu cpu' i h
  exact execute_starred_omega _ i hs hexec

/-- A word decoding to LDA with address 0 and direct mode (opcode trits
O P O at positions 8..6, value 2187). -/
def ldaWord : Tryte9 :=
  ⟨[Trit.O, Trit.O, Trit.O, Trit.O, Trit.O, Trit.O, Trit.O, Trit.P, Trit.O], rfl⟩

/-- A fresh CPU whose cell at machine address 0 holds that LDA word. -/
def cpuLda : Cpu :=
  { Cpu.new with
    mem := ⟨(List.replicate 162 Tryte9.zero).set 81 ldaWord, by simp⟩ }

/-- Witness for C7 on a step that executes LDA. -/
theorem step_starred_omega_witness :
    isStarred (Instruction.Lda (Tryte9.from_i32 0) AddrMode.Direct) = true ∧
    cpuLda.step.1.regs.omega = cpuLda.step.1.regs.s.sign :=
  ⟨rfl,
   step_starred_omega cpuLda cpuLda.step.1
     (Instruction.Lda (Tryte9.from_i32 0) AddrMode.Direct) (by decide) rfl⟩

/-- Jump target of an instruction in a given register state: the
effective address for JMP, and for a conditional jump whose condition
holds there; none for every other instruction or an untaken jump. -/
def jumpTarget (i : Instruction) (regs : Registers) : Option Tryte9 :=
  match i with
  | .Jmp a m => some (regs.effective_address a m.to_trit)
  | .Jz a m => if regs.s.is_zero then some (regs.effective_address a m.to_trit) else none
  | .Jp a m =>
    if regs.s.sign = Trit.P then some (regs.effective_address a m.to_trit) else none
  | .Jn a m =>
    if regs.s.sign = Trit.N then some (regs.effective_address a m.to_trit) else none
  | .Jop a m =>
    if regs.omega = Trit.P then some (regs.effective_address a m.to_trit) else none
  | .Jon a m =>
    if regs.omega = Trit.N then some (regs.effective_address a m.to_trit) else none
  | _ => none

/-- Execute changes C exactly when a jump is taken, and then to the
effective target; every other successful instruction leaves C alone. -/
theorem execute_pc (cpu : Cpu) (i : Instruction)
    (hok : (cpu.execute i).2 = Except.ok ()) :
    (cpu.execute i).1.regs.c = (jumpTarget i cpu.regs).getD cpu.regs.c := by
  cases i with
  | Add addr mode =>
    cases hload : cpu.load_word (cpu.regs.effective_address addr mode.to_trit) with
    | error e => simp [Cpu.execute, hload] at hok
    | ok v => simp [Cpu.execute, hload, jumpTarget, Registers.set_omega]
  | Sub addr mode =>
    cases hload : cpu.load_word (cpu.regs.effective_address addr mode.to_trit) with
    | error e => simp [Cpu.execute, hload] at hok
    | ok v => simp [Cpu.execute, hload, jumpTarget, Registers.set_omega]
  | Mul addr mode =>
    cases hload : cpu.load_word (cpu.regs.effective_address addr mode.to_trit) with
    | error e => simp [Cpu.execute, hload] at hok
    | ok v => simp [Cpu.execute, hload, jumpTarget, Registers.set_omega]
  | Div addr mode =>
    cases hload : cpu.load_word (cpu.regs.effective_address addr mode.to_trit) with
    | error e => simp [Cpu.execute, hload] at hok
    | ok v =>
      cases hz : v.is_zero with
      | true => simp [Cpu.execute, hload, hz] at hok
      | false => simp [Cpu.execute, hload, hz, jumpTarget, Registers.set_omega]
  | AddAbs addr mode =>
    cases hload : cpu.load_word (cpu.regs.effective_address addr mode.to_trit) with
    | error e => simp [Cpu.execute, hload] at hok
    | ok v => simp [Cpu.execute, hload, jumpTarget, Registers.set_omega]
  | SubAbs addr mode =>
    cases hload : cpu.load_word (cpu.regs.effective_address addr mode.to_trit) with
    | error e => simp [Cpu.execute, hload] at hok
    | ok v => simp [Cpu.execute, hload, jumpTarget, Registers.set_omega]
  | Lda addr mode =>
    cases hread : cpu.mem.read_ternary (cpu.regs.effective_address addr mode.to_trit) with
    | error e => simp [Cpu.execute, hread] at hok
    | ok v => simp [Cpu.execute, hread, jumpTarget, Registers.set_omega]
  | LdaUnsigned addr mode =>
    cases hread : cpu.mem.read_ternary (cpu.regs.effective_address addr mode.to_trit) with
    | error e => simp [Cpu.execute, hread] at hok
    | ok v => simp [Cpu.execute, hread, jumpTarget, Registers.set_omega]
  | Sta addr mode =>
    cases hw : cpu.mem.write_ternary (cpu.regs.effective_address addr mode.to_trit)
        cpu.regs.s.low with
    | error e => simp [Cpu.execute, hw] at hok
    | ok m2 => simp [Cpu.execute, hw, jumpTarget]
  | Ldf addr mode =>
    cases hread : cpu.mem.read_ternary (cpu.regs.effective_address addr mode.to_trit) with
    | error e => simp [Cpu.execute, hread] at hok
    | ok v => simp [Cpu.execute, hread, jumpTarget]
  | Stf addr mode =>
    cases hw : cpu.mem.write_ternary (cpu.regs.effective_address addr mode.to_trit)
        cpu.regs.f.to_tryte9 with
    | error e => simp [Cpu.execute, hw] at hok
    | ok m2 => simp [Cpu.execute, hw, jumpTarget]
  | Ldr addr mode =>
    cases hread : cpu.mem.read_ternary (cpu.regs.effective_address addr mode.to_trit) with
    | error e => simp [Cpu.execute, hread] at hok
    | ok v => simp [Cpu.execute, hread, jumpTarget]
  | Str addr mode =>
    cases hw : cpu.mem.write_ternary (cpu.regs.effective_address addr mode.to_trit)
        cpu.regs.r.low with
    | error e => simp [Cpu.execute, hw] at hok
    | ok m2 => simp [Cpu.execute, hw, jumpTarget]
  | Xchg addr mode =>
    cases hread : cpu.mem.read_ternary (cpu.regs.effective_address addr mode.to_trit) with
    | error e => simp [Cpu.execute, hread] at hok
    | ok v =>
      cases hw : cpu.mem.write_ternary (cpu.regs.effective_address addr mode.to_trit)
          cpu.regs.s.low with
      | error e => simp [Cpu.execute, hread, hw] at hok
      | ok m2 => simp [Cpu.execute, hread, hw, jumpTarget, Registers.set_omega]
  | Jmp addr mode => simp [Cpu.execute, jumpTarget, Registers.jump]
  | Jz addr mode =>
    cases hz : cpu.regs.s.is_zero with
    | true => simp [Cpu.execute, jumpTarget, hz, Registers.jump]
    | false => simp [Cpu.execute, jumpTarget, hz]
  | Jp addr mode =>
    by_cases hc : cpu.regs.s.sign = Trit.P
    · simp [Cpu.execute, jumpTarget, hc, Registers.jump]
    · simp [Cpu.execute, jumpTarget, hc]
  | Jn addr mode =>
    by_cases hc : cpu.regs.s.sign = Trit.N
    · simp [Cpu.execute, jumpTarget, hc, Registers.jump]
    · simp [Cpu.execute, jumpTarget, hc]
  | Jop addr mode =>
    by_cases hc : cpu.regs.omega = Trit.P
    · simp [Cpu.execute, jumpTarget, hc, Registers.jump]
    · simp [Cpu.execute, jumpTarget, hc]
  | Jon addr mode =>
    by_cases hc : cpu.regs.omega = Trit.N
    · simp [Cpu.execute, jumpTarget, hc, Registers.jump]
    · simp [Cpu.execute, jumpTarget, hc]
  | Hlt => simp [Cpu.execute, jumpTarget]
  | Shl c => simp [Cpu.execute, jumpTarget, Registers.set_omega]
  | Shr c => simp [Cpu.execute, jumpTarget, Registers.set_omega]
  | Nop => simp [Cpu.execute, jumpTarget]
  | Tst => simp [Cpu.execute, jumpTarget, Registers.set_omega]

/-- C8: on every successful step fetching from C = p, the PC is set to
p + 1 by the advance that happens between fetch and decode/execute; the
final C after a non-jump instruction or an untaken conditional jump is
p + 1, while a taken jump overwrites C with the effective target during
execute (the register state at execute time is the PC-advanced one,
which differs from the pre-step state only in C). -/
theorem step_pc_advance (cpu cpu' : Cpu) (i : Instruction)
    (h : cpu.step = (cpu', Except.ok i)) :
    cpu.regs.advance_pc.c.to_i32 = cpu.regs.c.to_i32 + 1 ∧
    cpu'.regs.c = (jumpTarget i cpu.regs.advance_pc).getD
      (Tryte9.from_i32 (cpu.regs.c.to_i32 + 1)) ∧
    (jumpTarget i cpu.regs.advance_pc = none →
      cpu'.regs.c.to_i32 = cpu.regs.c.to_i32 + 1) := by
  obtain ⟨hrun, raw, hread, hdec, hexec, rfl⟩ := step_ok_inv cpu cpu' i h
  have hb := read_ternary_ok_bounds cpu.mem cpu.regs.c raw hread
  have h39 : (3 : Nat) ^ 9 = 19683 := by norm_num
  have hadv : cpu.regs.advance_pc.c.to_i32 = cpu.regs.c.to_i32 + 1 := by
    unfold Registers.advance_pc
    dsimp only
    apply Tryte9.to_from_i32
    omega
  have hpc := execute_pc ({ cpu with regs := cpu.regs.advance_pc } : Cpu) i hexec
  refine ⟨hadv, hpc, ?_⟩
  intro hnone
  dsimp only at hpc
  rw [hnone, Option.getD_none] at hpc
  dsimp only
  rw [hpc]
  exact hadv

/-- Witness for C8 on a fresh CPU, whose first step fetches from 0 and
executes HLT, a non-jump instruction. -/
theorem step_pc_advance_witness :
    Cpu.new.regs.advance_pc.c.to_i32 = Cpu.new.regs.c.to_i32 + 1 ∧
    Cpu.new.step.1.regs.c = (jumpTarget Instruction.Hlt Cpu.new.regs.advance_pc).getD
      (Tryte9.from_i32 (Cpu.new.regs.c.to_i32 + 1)) ∧
    (jumpTarget Instruction.Hlt Cpu.new.regs.advance_pc = none →
      Cpu.new.step.1.regs.c.to_i32 = Cpu.new.regs.c.to_i32 + 1) :=
  step_pc_advance Cpu.new Cpu.new.step.1 Instruction.Hlt (by decide)

end Setun
